import Mathlib

/-!
Shallow embedding of `wb_search_texts_sync.py`, the single script of the
repository `wb-search-texts`: a batch fetch-normalize-upsert pipeline for
Wildberries search-text analytics.

Modelling conventions:
* JSON values (the Python objects resulting from `resp.json()` and the item
  dicts) are the inductive `JVal`; JSON numbers are rationals `Rat`, which
  models exact decimal arithmetic of small Python ints/floats.
* A Python dict is an association list; `dict.get(k)` with default `None`
  is `jget`, returning `JVal.jnull` for an absent key.
* Python exceptions are `Except String`; a raised exception is `.error`.
* `datetime.now(UTC)` is modelled by passing the clock value read at the
  start of `build_db_rows` as an explicit parameter `load_dttm`; dates are
  opaque integers.
* The HTTP session is a map from request index to the response the server
  would give to that request; the second component of `wb_post` is the
  number of HTTP requests the call issues (the source performs exactly one
  `session.post`, straight-line, no loop).
-/

/-- Timestamps (value of `datetime.now(UTC)`), opaque ticks. -/
abbrev Timestamp := Nat

/-- Calendar dates, opaque (day numbers); the script never computes on the
period bounds inside the modelled functions. -/
abbrev PDate := Int

/-- JSON values as delivered by the WB API / stored in item dicts. -/
inductive JVal where
  | jnull : JVal
  | jbool : Bool → JVal
  | jnum : Rat → JVal
  | jstr : String → JVal
  | jobj : List (String × JVal) → JVal
  | jarr : List JVal → JVal

/-- A raw item: a Python dict, field name to JSON value. -/
abbrev Item := List (String × JVal)

/-- `it.get(k)` on a Python dict: the value, or `None` when absent. -/
def jget (it : Item) (k : String) : JVal :=
  match it.lookup k with
  | some v => v
  | none => JVal.jnull

/-- Python truthiness of a JSON value (`None`, `0`, `""`, `[]`, `\x7b\x7d`
and `False` are falsy). -/
def truthy : JVal → Bool
  | JVal.jnull => false
  | JVal.jbool b => b
  | JVal.jnum q => q != 0
  | JVal.jstr s => s != ""
  | JVal.jobj f => !f.isEmpty
  | JVal.jarr a => !a.isEmpty

/-- Python `a or b`: `a` when truthy, else `b`. -/
def pyOr (a b : JVal) : JVal := if truthy a then a else b

/-- Python `str.strip()`: remove leading and trailing whitespace
(structural implementation on the character list). -/
def pyTrim (s : String) : String :=
  String.mk (((s.data.dropWhile Char.isWhitespace).reverse.dropWhile
    Char.isWhitespace).reverse)

/-- Python `str.split(sep)` for a one-character separator (helper, on the
character list; `"".split(",") = [""]` as in Python). -/
def splitOnCharGo (sep : Char) : List Char → List Char → List String
  | [], acc => [String.mk acc.reverse]
  | c :: cs, acc =>
    if c = sep then String.mk acc.reverse :: splitOnCharGo sep cs []
    else splitOnCharGo sep cs (c :: acc)

/-- Python `str.split(sep)` for a one-character separator. -/
def splitOnChar (sep : Char) (s : String) : List String :=
  splitOnCharGo sep s.data []

/-- Numeric value of a digit character list (helper for the coercions). -/
def digitsVal (ds : List Char) : Nat :=
  ds.foldl (fun a c => 10 * a + (c.toNat - 48)) 0

/-- Split an optional leading sign from a character list: the sign as a
factor and the remaining characters. -/
def splitSign : List Char → Int × List Char
  | '-' :: cs => (-1, cs)
  | '+' :: cs => (1, cs)
  | cs => (1, cs)

/-- Python `int(s)` on a string: optional sign around a non-empty digit
run, surrounding whitespace ignored; anything else raises (here:
`none`). -/
def pyIntOfString (s : String) : Option Int :=
  let (sgn, ds) := splitSign (pyTrim s).data
  if ds ≠ [] ∧ ds.all Char.isDigit then some (sgn * (digitsVal ds : Int))
  else none

/-- Python `float(s)` on a string, restricted to the plain decimal forms
`[sign] digits [. digits]` (exponent, inf and nan forms are outside the
model; no claim exercises them). -/
def pyFloatOfString (s : String) : Option Rat :=
  let (sgn, ds) := splitSign (pyTrim s).data
  match splitOnCharGo '.' ds [] with
  | [a] =>
    if a.data ≠ [] ∧ a.data.all Char.isDigit then
      some ((sgn : Rat) * (digitsVal a.data : Rat))
    else none
  | [a, b] =>
    if (a.data ≠ [] ∨ b.data ≠ []) ∧ a.data.all Char.isDigit ∧ b.data.all Char.isDigit then
      some ((sgn : Rat) * ((digitsVal a.data : Rat) +
        (digitsVal b.data : Rat) / ((10 : Rat) ^ b.data.length)))
    else none
  | _ => none

/-- Truncation toward zero, the behaviour of Python `int()` on a float. -/
def ratTrunc (q : Rat) : Int := if q < 0 then -(Int.floor (-q)) else Int.floor q

/-- Python `int(v)` on a JSON value: ints and floats truncate, booleans map
to 0/1, digit strings parse; `None`, objects and arrays raise (`none`). -/
def pyIntCoe : JVal → Option Int
  | JVal.jnum q => some (ratTrunc q)
  | JVal.jbool b => some (if b then 1 else 0)
  | JVal.jstr s => pyIntOfString s
  | _ => none

/-- Python `float(v)` on a JSON value: numbers pass through, booleans map
to 0/1, decimal strings parse; `None`, objects and arrays raise (`none`). -/
def pyFloatCoe : JVal → Option Rat
  | JVal.jnum q => some q
  | JVal.jbool b => some (if b then 1 else 0)
  | JVal.jstr s => pyFloatOfString s
  | _ => none

/-- `safe_float` of the source: `None` stays absent, any coercion failure
is caught and becomes absent. -/
def safe_float (v : JVal) : Option Rat :=
  match v with
  | JVal.jnull => none
  | v => pyFloatCoe v

/-- `safe_int` of the source: `None` stays absent, any coercion failure is
caught and becomes absent. -/
def safe_int (v : JVal) : Option Int :=
  match v with
  | JVal.jnull => none
  | v => pyIntCoe v

/-- `chunk` of the source: `[lst[i:i+n] for i in range(0, len(lst), n)]`.
Modelled for the `n > 0` case the script uses (with `n = 0` the Python
`range` raises; here it yields `[]`). -/
def chunk {α : Type} (lst : List α) (n : Nat) : List (List α) :=
  if h : n = 0 ∨ lst.length = 0 then []
  else lst.take n :: chunk (lst.drop n) n
termination_by lst.length
decreasing_by
  push_neg at h
  simp only [List.length_drop]
  omega

/-- The canonical persisted row, one tuple of `build_db_rows` in order
`(load_dttm, period_start, period_end, nm_id, search_text, avg_position,
open_card, add_to_cart, orders, open_to_cart, cart_to_order,
open_to_order)`. -/
structure DbRow where
  load_dttm : Timestamp
  period_start : PDate
  period_end : PDate
  nm_id : Int
  search_text : String
  avg_position : Option Rat
  open_card : Option Int
  add_to_cart : Option Int
  orders : Option Int
  open_to_cart : Option Rat
  cart_to_order : Option Rat
  open_to_order : Option Rat
deriving DecidableEq, Repr

/-- `.strip()` on the value Python holds for the search text: defined on
strings, raises `AttributeError` on any other (truthy) value. -/
def pyStripText (v : JVal) : Except String String :=
  match v with
  | JVal.jstr s => Except.ok (pyTrim s)
  | _ => Except.error "AttributeError: object has no attribute strip"

/-- `int(nm_id)` in the row literal: raising version of the coercion. -/
def pyIntExn (v : JVal) : Except String Int :=
  match pyIntCoe v with
  | some n => Except.ok n
  | none => Except.error "TypeError: int() argument invalid"

/-- One of the three analogous ratio fallbacks of `build_db_rows`, e.g.
`if open_to_cart is None and open_card and open_card > 0 and add_to_cart
is not None: open_to_cart = add_to_cart / open_card` (the `d != 0`
conjunct is the Python truthiness test on the denominator). -/
def derive_ratio (upstream : Option Rat) (num denom : Option Int) : Option Rat :=
  match upstream with
  | some x => some x
  | none =>
    match denom, num with
    | some d, some nu =>
      if d ≠ 0 ∧ 0 < d then some ((nu : Rat) / (d : Rat)) else none
    | _, _ => none

/-- The body of the `for it in items` loop of `build_db_rows` for one item:
`.error` models a raised exception, `.ok none` the `continue` that drops
the item, `.ok (some r)` an appended row. -/
def build_row (load_dttm : Timestamp) (period_start period_end : PDate)
    (it : Item) : Except String (Option DbRow) :=
  let nm_id := pyOr (jget it "nmId") (jget it "nmID")
  match pyStripText (pyOr (jget it "text") (JVal.jstr "")) with
  | Except.error e => Except.error e
  | Except.ok search_text =>
    if truthy nm_id = false ∨ search_text = "" then Except.ok none
    else
      let avg_position := safe_float (jget it "avgPosition")
      let open_card := safe_int (jget it "openCard")
      let add_to_cart := safe_int (jget it "addToCart")
      let orders := safe_int (jget it "orders")
      let open_to_cart := derive_ratio (safe_float (jget it "openToCart")) add_to_cart open_card
      let cart_to_order := derive_ratio (safe_float (jget it "cartToOrder")) orders add_to_cart
      let open_to_order := derive_ratio (safe_float (jget it "openToOrder")) orders open_card
      match pyIntExn nm_id with
      | Except.error e => Except.error e
      | Except.ok nm =>
        Except.ok (some
          { load_dttm := load_dttm
            period_start := period_start
            period_end := period_end
            nm_id := nm
            search_text := search_text
            avg_position := avg_position
            open_card := open_card
            add_to_cart := add_to_cart
            orders := orders
            open_to_cart := open_to_cart
            cart_to_order := cart_to_order
            open_to_order := open_to_order })

/-- `build_db_rows` of the source; `load_dttm` is the single value of
`datetime.now(UTC)` read at the start of the call. An exception raised on
any item propagates and discards the whole result, exactly as in the
Python loop. -/
def build_db_rows (load_dttm : Timestamp) (period_start period_end : PDate)
    (items : List Item) : Except String (List DbRow) :=
  match items with
  | [] => Except.ok []
  | it :: rest =>
    match build_row load_dttm period_start period_end it with
    | Except.error e => Except.error e
    | Except.ok none => build_db_rows load_dttm period_start period_end rest
    | Except.ok (some r) =>
      match build_db_rows load_dttm period_start period_end rest with
      | Except.error e => Except.error e
      | Except.ok rs => Except.ok (r :: rs)

/-- One HTTP response as `requests` exposes it to `wb_post`: status code,
body text, and the parsed JSON body. -/
structure HttpResponse where
  status : Nat
  text : String
  json : JVal

/-- The two `RuntimeError` shapes `wb_post` can raise. -/
inductive WbError where
  | tooManyRequests : String → WbError
  | requestFailed : Nat → String → WbError
deriving DecidableEq

/-- `wb_post` of the source. `server i` is the response the upstream would
give to the i-th request of this call; the second component counts the
HTTP requests issued — the source body is straight-line with a single
`session.post`, so the count is always 1 and only `server 0` is ever
consulted. -/
def wb_post (server : Nat → HttpResponse) : Except WbError JVal × Nat :=
  let resp := server 0
  (if resp.status = 429 then Except.error (WbError.tooManyRequests resp.text)
   else if resp.status ≠ 200 then Except.error (WbError.requestFailed resp.status resp.text)
   else Except.ok resp.json, 1)

/-- The first phase of `parse_nm_ids_csv`: split on commas, strip each
part, `int(...)` every non-empty part in order (a malformed part raises,
modelled by `.error`). -/
def parse_nm_parts : List String → Except String (List Int)
  | [] => Except.ok []
  | p :: ps =>
    if p = "" then parse_nm_parts ps
    else
      match pyIntOfString p with
      | none => Except.error p
      | some n =>
        match parse_nm_parts ps with
        | Except.error e => Except.error e
        | Except.ok rest => Except.ok (n :: rest)

/-- The second phase of `parse_nm_ids_csv`: unique preserving order, with
the `seen` set threaded exactly as in the Python loop. -/
def uniqKeepFirst : List Int → List Int → List Int
  | [], _ => []
  | x :: xs, seen =>
    if x ∈ seen then uniqKeepFirst xs seen
    else x :: uniqKeepFirst xs (x :: seen)

/-- `parse_nm_ids_csv` of the source: CSV split, strip, parse, dedup
preserving first occurrence; no sorting and no emptiness check. -/
def parse_nm_ids_csv (s : String) : Except String (List Int) :=
  match parse_nm_parts ((splitOnChar ',' s).map pyTrim) with
  | Except.error e => Except.error e
  | Except.ok out => Except.ok (uniqKeepFirst out [])

/-- The Python `sorted(set_of_ints)`: ascending order, duplicates removed
(insertion sort of the deduplicated list; extensionally the unique
ascending enumeration of the set). -/
def sortedSet (l : List Int) : List Int :=
  List.insertionSort (fun a b => a ≤ b) l.dedup

/-- `fetch_nm_ids_from_db` of the source, with the database abstracted to
the per-candidate query outcomes: for each candidate table, either the
query raised (`.error`) or returned the `nm_id` column (`none` entries are
SQL NULLs, filtered by `r[0] is not None`). The first candidate yielding a
non-empty sorted set is returned; when all candidates fail or are empty
the function raises. -/
def fetch_nm_ids_from_db : List (Except String (List (Option Int))) → Except String (List Int)
  | [] => Except.error "no nm_id found in any candidate table"
  | r :: rest =>
    match r with
    | Except.error _ => fetch_nm_ids_from_db rest
    | Except.ok col =>
      let nm_ids := sortedSet (col.filterMap id)
      if nm_ids ≠ [] then Except.ok nm_ids else fetch_nm_ids_from_db rest

/-- The composite conflict key of the upsert statement:
`(period_start, coalesce(period_end, period_start), nm_id, search_text)`
(`period_end` is always present in rows built by `build_db_rows`, so the
coalesce is the identity here). -/
def rowKey (r : DbRow) : PDate × PDate × Int × String :=
  (r.period_start, r.period_end, r.nm_id, r.search_text)

/-- The storage table, a list of rows with distinct keys maintained by
`upsert_one`. -/
abbrev Store := List DbRow

/-- Effect of one row of the `insert ... on conflict do update` statement:
overwrite the row with a matching key, else append. -/
def upsert_one (store : Store) (r : DbRow) : Store :=
  if store.any (fun x => rowKey x = rowKey r) then
    store.map (fun x => if rowKey x = rowKey r then r else x)
  else store ++ [r]

/-- `upsert_rows` of the source: on an empty list it logs and returns
without touching the connection; otherwise it executes the bulk statement
(all rows, in order) and commits. The result is the store after the call
and the number of rows written. -/
def upsert_rows (store : Store) (rows : List DbRow) : Store × Nat :=
  if rows.isEmpty then (store, 0)
  else (rows.foldl upsert_one store, rows.length)

deriving instance DecidableEq for Except

/-- The server of the throttling scenario of the spec: 429 on the first
three requests, 200 with a payload from the fourth request on. -/
def serverC1 : Nat → HttpResponse := fun i =>
  if i < 3 then { status := 429, text := "busy", json := JVal.jnull }
  else { status := 200, text := "ok",
         json := JVal.jobj [("data", JVal.jobj [("items", JVal.jarr [])])] }

/-- The server of the fatal scenario: 500 on every request. -/
def serverC5 : Nat → HttpResponse :=
  fun _ => { status := 500, text := "internal error", json := JVal.jnull }

/-- A concrete raw item with openCard 50, addToCart 10, orders 2 and no
upstream ratios (the derived-ratio example of the spec). -/
def itemC2 : Item :=
  [("nmId", JVal.jnum 123), ("text", JVal.jstr "phone"),
   ("openCard", JVal.jnum 50), ("addToCart", JVal.jnum 10),
   ("orders", JVal.jnum 2)]

/-- The row `build_db_rows 0 0 0 [itemC2]` produces. -/
def rowC2 : DbRow where
  load_dttm := 0
  period_start := 0
  period_end := 0
  nm_id := 123
  search_text := "phone"
  avg_position := none
  open_card := some 50
  add_to_cart := some 10
  orders := some 2
  open_to_cart := some (1 / 5)
  cart_to_order := some (1 / 5)
  open_to_order := some (1 / 25)

/-- A concrete valid item (used to exhibit the load-timestamp dependence
of the produced rows). -/
def itemC6 : Item :=
  [("nmId", JVal.jnum 9), ("text", JVal.jstr "bag"), ("openCard", JVal.jnum 3)]

/-- A concrete item whose openCard metric arrives as a wrapper object
with a "current" sub-field. -/
def itemC7 : Item :=
  [("nmId", JVal.jnum 77), ("text", JVal.jstr "case"),
   ("openCard", JVal.jobj [("current", JVal.jnum 5)])]

/-- The row `build_db_rows 0 0 0 [itemC7]` produces: the wrapper object
fails the int coercion, so openCard is absent (and so are the ratios that
would need it). -/
def rowC7 : DbRow where
  load_dttm := 0
  period_start := 0
  period_end := 0
  nm_id := 77
  search_text := "case"
  avg_position := none
  open_card := none
  add_to_cart := none
  orders := none
  open_to_cart := none
  cart_to_order := none
  open_to_order := none

/-- Erase the load timestamp of a row (for comparing rows produced by
calls at different clock readings). -/
def eraseLoad (r : DbRow) : DbRow := { r with load_dttm := 0 }

/-- A candidate query outcome that contributes no identifiers: the query
raised, or its non-null id set is empty. -/
def noCandidateIds : Except String (List (Option Int)) → Prop
  | Except.error _ => True
  | Except.ok col => sortedSet (col.filterMap id) = []

/-! ## Lemmas about `chunk` -/

/-- Unfolding of `chunk` in the non-degenerate case. -/
theorem chunk_cons {α : Type} (lst : List α) (n : Nat) (hn : 0 < n)
    (hl : lst ≠ []) : chunk lst n = lst.take n :: chunk (lst.drop n) n := by
  rw [chunk]
  have hno : ¬ (n = 0 ∨ lst.length = 0) := by
    push_neg
    exact ⟨by omega, by simpa [List.length_eq_zero] using hl⟩
  rw [dif_neg hno]

/-- Concatenating the chunks restores the list. -/
theorem chunk_join {α : Type} (n : Nat) (hn : 0 < n) (lst : List α) :
    (chunk lst n).join = lst := by
  by_cases hl : lst = []
  · subst hl
    rw [chunk]
    simp
  · rw [chunk_cons lst n hn hl]
    have ih := chunk_join n hn (lst.drop n)
    simp [ih, List.take_append_drop]
termination_by lst.length
decreasing_by
  simp only [List.length_drop]
  have hL : lst.length ≠ 0 := by simpa [List.length_eq_zero] using hl
  omega

/-- The number of chunks is the ceiling of length over chunk size. -/
theorem chunk_length {α : Type} (n : Nat) (hn : 0 < n) (lst : List α) :
    (chunk lst n).length = (lst.length + n - 1) / n := by
  by_cases hl : lst = []
  · subst hl
    rw [chunk]
    simp
    exact (Nat.div_eq_of_lt (by omega)).symm
  · rw [chunk_cons lst n hn hl]
    have ih := chunk_length n hn (lst.drop n)
    have hL : lst.length ≠ 0 := by simpa [List.length_eq_zero] using hl
    simp only [List.length_cons, ih, List.length_drop]
    rcases le_or_lt lst.length n with hle | hlt
    · have h1 : lst.length - n = 0 := by omega
      rw [h1]
      have h2 : (0 + n - 1) / n = 0 := Nat.div_eq_of_lt (by omega)
      have h3 : (lst.length + n - 1) / n = 1 := by
        apply Nat.div_eq_of_lt_le <;> omega
      omega
    · have h1 : lst.length - n + n - 1 = lst.length - 1 := by omega
      have h2 : lst.length + n - 1 = (lst.length - 1) + n := by omega
      rw [h1, h2, Nat.add_div_right _ hn]
termination_by lst.length
decreasing_by
  simp only [List.length_drop]
  have hL : lst.length ≠ 0 := by simpa [List.length_eq_zero] using hl
  omega

/-- Every chunk is non-empty and no longer than the chunk size. -/
theorem chunk_mem {α : Type} (n : Nat) (hn : 0 < n) (lst : List α)
    (b : List α) (hb : b ∈ chunk lst n) : b.length ≤ n ∧ b ≠ [] := by
  by_cases hl : lst = []
  · subst hl
    rw [chunk] at hb
    simp at hb
  · rw [chunk_cons lst n hn hl] at hb
    rcases List.mem_cons.mp hb with h | h
    · subst h
      refine ⟨List.length_take_le n lst, fun hc => ?_⟩
      rcases List.take_eq_nil_iff.mp hc with h0 | h0
      · omega
      · exact hl h0
    · exact chunk_mem n hn (lst.drop n) b h
termination_by lst.length
decreasing_by
  simp only [List.length_drop]
  have hL : lst.length ≠ 0 := by simpa [List.length_eq_zero] using hl
  omega

/-- Every chunk except possibly the last has size exactly the chunk
size. -/
theorem chunk_dropLast {α : Type} (n : Nat) (hn : 0 < n) (lst : List α) :
    ∀ b ∈ (chunk lst n).dropLast, b.length = n := by
  by_cases hl : lst = []
  · subst hl
    rw [chunk]
    simp
  · rw [chunk_cons lst n hn hl]
    by_cases hd : lst.drop n = []
    · have hcn : chunk (lst.drop n) n = [] := by
        rw [hd, chunk]
        simp
      rw [hcn]
      simp
    · have hne : chunk (lst.drop n) n ≠ [] := by
        rw [chunk_cons (lst.drop n) n hn hd]
        simp
      intro b hb
      rw [List.dropLast_cons_of_ne_nil hne] at hb
      rcases List.mem_cons.mp hb with h | h
      · subst h
        have hlen : n < lst.length := by
          by_contra hcon
          push_neg at hcon
          exact hd (List.drop_eq_nil_of_le hcon)
        simp [List.length_take]
        omega
      · exact chunk_dropLast n hn (lst.drop n) b h
termination_by lst.length
decreasing_by
  simp only [List.length_drop]
  have hL : lst.length ≠ 0 := by simpa [List.length_eq_zero] using hl
  omega

/-- C3: for every identifier list of size N and batch size B > 0, `chunk`
yields exactly ceil(N/B) batches, each non-empty and of size at most B,
every batch except possibly the last of size exactly B, and their
concatenation in order reproduces the original list with each element
exactly once. -/
theorem chunk_spec {α : Type} (lst : List α) (n : Nat) (hn : 0 < n) :
    (chunk lst n).length = (lst.length + n - 1) / n ∧
    (∀ b ∈ chunk lst n, b.length ≤ n ∧ b ≠ []) ∧
    (∀ b ∈ (chunk lst n).dropLast, b.length = n) ∧
    (chunk lst n).join = lst :=
  ⟨chunk_length n hn lst, fun b hb => chunk_mem n hn lst b hb,
   chunk_dropLast n hn lst, chunk_join n hn lst⟩

/-- Witness for C3 at the concrete list `[1,2,3,4,5]` with batch size 2. -/
theorem chunk_spec_witness :
    (0 < 2) ∧ (chunk [1, 2, 3, 4, 5] 2).length = 3 ∧
    (∀ b ∈ (chunk [1, 2, 3, 4, 5] 2).dropLast, b.length = 2) ∧
    (chunk [1, 2, 3, 4, 5] 2).join = [1, 2, 3, 4, 5] := by
  refine ⟨by decide, ?_, (chunk_spec [1, 2, 3, 4, 5] 2 (by decide)).2.2.1,
    (chunk_spec [1, 2, 3, 4, 5] 2 (by decide)).2.2.2⟩
  have h := (chunk_spec ([1, 2, 3, 4, 5] : List Nat) 2 (by decide)).1
  simpa using h

/-! ## The HTTP client: throttling and fatal statuses -/

/-- C1 counterexample: against a server answering 429 on the first three
attempts and 200 on the fourth, `wb_post` does not return the successful
payload — it raises the 429 error after exactly one request, performing
no retry at all. -/
theorem wb_post_429_retry_counterexample :
    wb_post serverC1 = (Except.error (WbError.tooManyRequests "busy"), 1) ∧
    (serverC1 0).status = 429 ∧ (serverC1 2).status = 429 ∧
    (serverC1 3).status = 200 :=
  ⟨rfl, rfl, rfl, rfl⟩

/-- C1 amended: a fetch call that receives HTTP 429 raises the throttling
error immediately after a single request — there is no retry, no backoff
and no retry budget in the client. -/
theorem wb_post_429_immediate_failure (server : Nat → HttpResponse)
    (h : (server 0).status = 429) :
    wb_post server = (Except.error (WbError.tooManyRequests (server 0).text), 1) := by
  simp [wb_post, h]

/-- Witness for the amended C1 at the concrete throttling server. -/
theorem wb_post_429_immediate_failure_witness :
    (serverC1 0).status = 429 ∧
    wb_post serverC1 = (Except.error (WbError.tooManyRequests (serverC1 0).text), 1) :=
  ⟨rfl, wb_post_429_immediate_failure serverC1 rfl⟩

/-- C5: a fetch call that receives a non-success status other than 429
fails immediately with the error carrying the status and response body,
after exactly one request — no retry. -/
theorem wb_post_fatal_no_retry (server : Nat → HttpResponse)
    (h429 : (server 0).status ≠ 429) (h200 : (server 0).status ≠ 200) :
    wb_post server =
      (Except.error (WbError.requestFailed (server 0).status (server 0).text), 1) := by
  simp [wb_post, h429, h200]

/-- Witness for C5 at a server answering 500 on the first attempt. -/
theorem wb_post_fatal_no_retry_witness :
    (serverC5 0).status = 500 ∧
    wb_post serverC5 =
      (Except.error (WbError.requestFailed 500 "internal error"), 1) :=
  ⟨rfl, wb_post_fatal_no_retry serverC5 (by decide) (by decide)⟩

/-! ## Inversion and structure lemmas for `build_row` / `build_db_rows` -/

/-- Inversion: an emitted row passed the guard (non-falsy identifier,
non-empty stripped text) and carries exactly the extracted and derived
field values. -/
theorem build_row_ok_some (t : Timestamp) (ps pe : PDate) (it : Item) (r : DbRow)
    (h : build_row t ps pe it = Except.ok (some r)) :
    ∃ st nm, pyStripText (pyOr (jget it "text") (JVal.jstr "")) = Except.ok st ∧
      st ≠ "" ∧
      truthy (pyOr (jget it "nmId") (jget it "nmID")) ≠ false ∧
      pyIntExn (pyOr (jget it "nmId") (jget it "nmID")) = Except.ok nm ∧
      r = { load_dttm := t, period_start := ps, period_end := pe, nm_id := nm,
            search_text := st,
            avg_position := safe_float (jget it "avgPosition"),
            open_card := safe_int (jget it "openCard"),
            add_to_cart := safe_int (jget it "addToCart"),
            orders := safe_int (jget it "orders"),
            open_to_cart := derive_ratio (safe_float (jget it "openToCart"))
              (safe_int (jget it "addToCart")) (safe_int (jget it "openCard")),
            cart_to_order := derive_ratio (safe_float (jget it "cartToOrder"))
              (safe_int (jget it "orders")) (safe_int (jget it "addToCart")),
            open_to_order := derive_ratio (safe_float (jget it "openToOrder"))
              (safe_int (jget it "orders")) (safe_int (jget it "openCard")) } := by
  cases hs : pyStripText (pyOr (jget it "text") (JVal.jstr "")) with
  | error e => simp [build_row, hs] at h
  | ok st =>
    by_cases hguard : truthy (pyOr (jget it "nmId") (jget it "nmID")) = false ∨ st = ""
    · simp [build_row, hs, hguard] at h
    · cases hnm : pyIntExn (pyOr (jget it "nmId") (jget it "nmID")) with
      | error e => simp [build_row, hs, hguard, hnm] at h
      | ok nm =>
        push_neg at hguard
        simp [build_row, hs, hguard, hnm] at h
        exact ⟨st, nm, rfl, hguard.2, hguard.1, rfl, h.symm⟩

/-- The clock value enters a produced row only through its load-timestamp
field. -/
theorem build_row_shift (t : Timestamp) (ps pe : PDate) (it : Item) :
    build_row t ps pe it =
      (build_row 0 ps pe it).map (Option.map (fun r => { r with load_dttm := t })) := by
  cases hs : pyStripText (pyOr (jget it "text") (JVal.jstr "")) with
  | error e => simp [build_row, hs, Except.map]
  | ok st =>
    by_cases hguard : truthy (pyOr (jget it "nmId") (jget it "nmID")) = false ∨ st = ""
    · simp [build_row, hs, hguard, Except.map]
    · cases hnm : pyIntExn (pyOr (jget it "nmId") (jget it "nmID")) with
      | error e => simp [build_row, hs, hguard, hnm, Except.map]
      | ok nm => simp [build_row, hs, hguard, hnm, Except.map]

/-- The clock value enters the produced row list only through the
load-timestamp field of every row. -/
theorem build_db_rows_shift (t : Timestamp) (ps pe : PDate) (items : List Item) :
    build_db_rows t ps pe items =
      (build_db_rows 0 ps pe items).map
        (List.map (fun r => { r with load_dttm := t })) := by
  induction items with
  | nil => rfl
  | cons it rest ih =>
    simp only [build_db_rows]
    rw [build_row_shift t ps pe it]
    cases h0 : build_row 0 ps pe it with
    | error e => simp [Except.map]
    | ok o =>
      cases o with
      | none => simpa [Except.map] using ih
      | some r =>
        rw [ih]
        cases hr : build_db_rows 0 ps pe rest with
        | error e => simp [Except.map]
        | ok rs => simp [Except.map]

/-- C10: every canonical row produced by a single `build_db_rows` call
carries the same load timestamp, the one captured once at the start of the
call; rows of one batch never disagree on load time. -/
theorem build_db_rows_single_load (t : Timestamp) (ps pe : PDate)
    (items : List Item) (rows : List DbRow)
    (h : build_db_rows t ps pe items = Except.ok rows) :
    ∀ r ∈ rows, r.load_dttm = t := by
  rw [build_db_rows_shift] at h
  cases h0 : build_db_rows 0 ps pe items with
  | error e => rw [h0] at h; simp [Except.map] at h
  | ok rs =>
    rw [h0] at h
    simp [Except.map] at h
    subst h
    intro r hr
    rcases List.mem_map.mp hr with ⟨r0, _, hr0⟩
    rw [← hr0]

/-- Witness for C10 at a concrete item and clock value 42. -/
theorem build_db_rows_single_load_witness :
    build_db_rows 42 0 0 [itemC6] =
      Except.ok [DbRow.mk 42 0 0 9 "bag" none (some 3) none none none none none] ∧
    ∀ r ∈ [DbRow.mk 42 0 0 9 "bag" none (some 3) none none none none none],
      r.load_dttm = 42 := by
  constructor
  · decide
  · exact build_db_rows_single_load 42 0 0 [itemC6] _ (by decide)

/-- C6 counterexample: running `build_db_rows` twice on the same period
and item list but at different clock readings yields different rows (the
load timestamp is part of every row), so normalization is not
deterministic in its declared inputs alone. -/
theorem build_db_rows_determinism_counterexample :
    build_db_rows 0 0 0 [itemC6] ≠ build_db_rows 1 0 0 [itemC6] := by decide

/-- C6 amended: normalization is deterministic in its inputs up to the
load timestamp: two runs on the same period and raw item list produce
identical canonical rows once the load-timestamp field is disregarded. -/
theorem build_db_rows_deterministic_mod_load (t₁ t₂ : Timestamp) (ps pe : PDate)
    (items : List Item) :
    (build_db_rows t₁ ps pe items).map (List.map eraseLoad) =
      (build_db_rows t₂ ps pe items).map (List.map eraseLoad) := by
  rw [build_db_rows_shift t₁, build_db_rows_shift t₂]
  cases build_db_rows 0 ps pe items with
  | error e => rfl
  | ok rs => simp [Except.map, eraseLoad, List.map_map, Function.comp]

/-! ## Derived conversion ratios -/

/-- C2 counterexample: for the item with openCard 50, addToCart 10,
orders 2 and no upstream ratios, normalization yields the plain fractions
0.2, 0.2 and 0.04 — not the percentage values 20, 20 and 4 the claim
states. -/
theorem build_db_rows_ratio_counterexample :
    build_db_rows 0 0 0 [itemC2] = Except.ok [rowC2] ∧
    rowC2.open_to_cart = some (1 / 5) ∧ rowC2.cart_to_order = some (1 / 5) ∧
    rowC2.open_to_order = some (1 / 25) ∧
    rowC2.open_to_cart ≠ some 20 ∧ rowC2.cart_to_order ≠ some 20 ∧
    rowC2.open_to_order ≠ some 4 := by
  refine ⟨?_, rfl, rfl, rfl, ?_, ?_, ?_⟩
  · simp [build_db_rows, build_row, itemC2, jget, pyOr, truthy, safe_int, safe_float,
      pyIntCoe, pyFloatCoe, pyStripText, pyIntExn, derive_ratio, ratTrunc, List.lookup,
      pyTrim, rowC2]
    norm_num
  all_goals simp [rowC2]; norm_num

/-- C2 amended: a missing ratio is derived as the plain quotient of the
two resolved counts (fraction units, no factor 100) whenever the
denominator is present and positive and the numerator is present, and is
left absent otherwise; an upstream-supplied ratio is kept. On the example
item this gives openToCart 1/5, cartToOrder 1/5, openToOrder 1/25. -/
theorem derive_ratio_amended :
    (∀ (nu d : Int), 0 < d →
      derive_ratio none (some nu) (some d) = some ((nu : Rat) / (d : Rat))) ∧
    (∀ (nu : Option Int) (d : Int), d ≤ 0 → derive_ratio none nu (some d) = none) ∧
    (∀ nu : Option Int, derive_ratio none nu none = none) ∧
    (∀ d : Option Int, derive_ratio none none d = none) ∧
    (∀ (x : Rat) (nu d : Option Int), derive_ratio (some x) nu d = some x) ∧
    build_db_rows 0 0 0 [itemC2] = Except.ok [rowC2] := by
  refine ⟨?_, ?_, ?_, ?_, ?_, ?_⟩
  · intro nu d hd
    simp [derive_ratio]
    omega
  · intro nu d hd
    cases nu with
    | none => simp [derive_ratio]
    | some v => simp [derive_ratio]; omega
  · intro nu; cases nu <;> simp [derive_ratio]
  · intro d; cases d <;> simp [derive_ratio]
  · intro x nu d; simp [derive_ratio]
  · simp [build_db_rows, build_row, itemC2, jget, pyOr, truthy, safe_int, safe_float,
      pyIntCoe, pyFloatCoe, pyStripText, pyIntExn, derive_ratio, ratTrunc, List.lookup,
      pyTrim, rowC2]
    norm_num

/-- Witness for the amended C2 at numerator 10 and denominator 50. -/
theorem derive_ratio_amended_witness :
    (0 : Int) < 50 ∧ derive_ratio none (some 10) (some 50) = some ((10 : Rat) / (50 : Rat)) :=
  ⟨by norm_num, derive_ratio_amended.1 10 50 (by norm_num)⟩

/-! ## Dropping invalid items -/

/-- C4: normalization never emits a row whose search text is empty after
trimming or whose identifier is absent under both accepted spellings
(nmId / nmID): such items produce no row (first conjunct), and every row
an `Except.ok` run delivers to storage has non-empty search text (second
conjunct). -/
theorem build_db_rows_drop_invalid :
    (∀ (t : Timestamp) (ps pe : PDate) (it : Item) (r : DbRow),
      ((it.lookup "nmId" = none ∧ it.lookup "nmID" = none) ∨
        (∀ s, jget it "text" = JVal.jstr s → pyTrim s = "")) →
      build_row t ps pe it ≠ Except.ok (some r)) ∧
    (∀ (t : Timestamp) (ps pe : PDate) (items : List Item) (rows : List DbRow),
      build_db_rows t ps pe items = Except.ok rows →
      ∀ r ∈ rows, r.search_text ≠ "") := by
  constructor
  · intro t ps pe it r hcond habs
    obtain ⟨st, nm, hs, hst, htr, hnm, hr⟩ := build_row_ok_some t ps pe it r habs
    rcases hcond with ⟨h1, h2⟩ | htext
    · have hj1 : jget it "nmId" = JVal.jnull := by simp [jget, h1]
      have hj2 : jget it "nmID" = JVal.jnull := by simp [jget, h2]
      rw [hj1, hj2] at htr
      exact htr rfl
    · cases hv : jget it "text" with
      | jnull => rw [hv] at hs; simp [pyOr, truthy, pyStripText] at hs; exact hst hs.symm
      | jbool b =>
        cases b with
        | false => rw [hv] at hs; simp [pyOr, truthy, pyStripText] at hs; exact hst hs.symm
        | true => rw [hv] at hs; simp [pyOr, truthy, pyStripText] at hs
      | jnum q =>
        by_cases hq : q = 0
        · rw [hv, hq] at hs; simp [pyOr, truthy, pyStripText] at hs; exact hst hs.symm
        · rw [hv] at hs; simp [pyOr, truthy, pyStripText, hq] at hs
      | jstr s =>
        have hts : pyTrim s = "" := htext s hv
        by_cases hempty : s = ""
        · rw [hv, hempty] at hs
          simp [pyOr, truthy, pyStripText] at hs
          exact hst hs.symm
        · rw [hv] at hs
          simp [pyOr, truthy, pyStripText, hempty] at hs
          rw [hts] at hs
          exact hst hs.symm
      | jobj f =>
        cases f with
        | nil => rw [hv] at hs; simp [pyOr, truthy, pyStripText] at hs; exact hst hs.symm
        | cons p ps' => rw [hv] at hs; simp [pyOr, truthy, pyStripText] at hs
      | jarr a =>
        cases a with
        | nil => rw [hv] at hs; simp [pyOr, truthy, pyStripText] at hs; exact hst hs.symm
        | cons x xs => rw [hv] at hs; simp [pyOr, truthy, pyStripText] at hs
  · intro t ps pe items
    induction items with
    | nil => intro rows h r hr; simp [build_db_rows] at h; subst h; simp at hr
    | cons it rest ih =>
      intro rows h r hr
      simp only [build_db_rows] at h
      cases h1 : build_row t ps pe it with
      | error e => rw [h1] at h; simp at h
      | ok o =>
        rw [h1] at h
        cases o with
        | none => exact ih rows h r hr
        | some r0 =>
          cases h2 : build_db_rows t ps pe rest with
          | error e => rw [h2] at h; simp at h
          | ok rs =>
            rw [h2] at h
            simp at h
            subst h
            rcases List.mem_cons.mp hr with hr0 | hrs
            · obtain ⟨st, nm, hs, hst, htr, hnm, hreq⟩ := build_row_ok_some t ps pe it r0 h1
              rw [hr0, hreq]
              exact hst
            · exact ih rs h2 r hrs

/-- Witness for C4 at an item carrying a search text but no identifier
under either spelling. -/
theorem build_db_rows_drop_invalid_witness :
    ([(("text" : String), JVal.jstr "x")] : Item).lookup "nmId" = none ∧
    ([(("text" : String), JVal.jstr "x")] : Item).lookup "nmID" = none ∧
    build_row 0 0 0 [(("text" : String), JVal.jstr "x")] ≠ Except.ok (some rowC2) :=
  ⟨rfl, rfl, build_db_rows_drop_invalid.1 0 0 0 _ rowC2 (Or.inl ⟨rfl, rfl⟩)⟩

/-! ## Tolerant metric coercion -/

/-- C7 counterexample: a metric delivered as a wrapper object with a
"current" sub-field is not unwrapped — the coercion fails and the metric
is absent in the produced row (openCard is none, not 5). -/
theorem wrapper_metric_counterexample :
    safe_int (JVal.jobj [("current", JVal.jnum 5)]) = none ∧
    safe_float (JVal.jobj [("current", JVal.jnum 5)]) = none ∧
    build_db_rows 0 0 0 [itemC7] = Except.ok [rowC7] ∧
    rowC7.open_card ≠ some 5 := by
  refine ⟨rfl, rfl, by decide, by decide⟩

/-- C7 amended: the normalizer performs no wrapper-object extraction —
any object or array metric value simply fails coercion and yields an
absent value — and a coercion failure never aborts the batch: an item
whose text field is a string and whose identifier is absent, falsy or
int-coercible is always processed without raising, whatever its metric
fields hold. -/
theorem tolerant_metric_coercion_amended :
    (∀ f, safe_int (JVal.jobj f) = none) ∧
    (∀ a, safe_int (JVal.jarr a) = none) ∧
    (∀ f, safe_float (JVal.jobj f) = none) ∧
    (∀ a, safe_float (JVal.jarr a) = none) ∧
    (∀ (t : Timestamp) (ps pe : PDate) (it : Item),
      (∃ s, jget it "text" = JVal.jstr s) →
      (truthy (pyOr (jget it "nmId") (jget it "nmID")) ≠ false →
        (pyIntCoe (pyOr (jget it "nmId") (jget it "nmID"))).isSome) →
      ∃ o, build_row t ps pe it = Except.ok o) := by
  refine ⟨fun f => rfl, fun a => rfl, fun f => rfl, fun a => rfl, ?_⟩
  intro t ps pe it ⟨s, hs⟩ hid
  have hstrip : ∃ st, pyStripText (pyOr (jget it "text") (JVal.jstr "")) = Except.ok st := by
    rw [hs]
    by_cases hse : s = ""
    · subst hse; exact ⟨"", rfl⟩
    · simp [pyOr, truthy, hse, pyStripText]
  obtain ⟨st, hst⟩ := hstrip
  by_cases hguard : truthy (pyOr (jget it "nmId") (jget it "nmID")) = false ∨ st = ""
  · exact ⟨none, by simp [build_row, hst, hguard]⟩
  · have hne : truthy (pyOr (jget it "nmId") (jget it "nmID")) ≠ false := by
      intro hf
      exact hguard (Or.inl hf)
    have hcoe := hid hne
    rcases hn : pyIntCoe (pyOr (jget it "nmId") (jget it "nmID")) with _ | n
    · rw [hn] at hcoe; simp at hcoe
    · have hexn : pyIntExn (pyOr (jget it "nmId") (jget it "nmID")) = Except.ok n := by
        simp [pyIntExn, hn]
      cases hb : build_row t ps pe it with
      | error e =>
        exfalso
        simp [build_row, hst, hguard, hexn] at hb
      | ok o => exact ⟨o, rfl⟩

/-- Witness for the amended C7 at the wrapper-object item. -/
theorem tolerant_metric_coercion_amended_witness :
    (∃ s, jget itemC7 "text" = JVal.jstr s) ∧
    ∃ o, build_row 0 0 0 itemC7 = Except.ok o := by
  refine ⟨⟨"case", rfl⟩, ?_⟩
  exact tolerant_metric_coercion_amended.2.2.2.2 0 0 0 itemC7 ⟨"case", rfl⟩
    (fun _ => by decide)

/-! ## Identifier sources -/

/-- `uniqKeepFirst` produces duplicate-free output disjoint from the seen
set. -/
theorem uniqKeepFirst_nodup (xs : List Int) :
    ∀ seen : List Int, (uniqKeepFirst xs seen).Nodup ∧
      ∀ x ∈ uniqKeepFirst xs seen, x ∉ seen := by
  induction xs with
  | nil => intro seen; simp [uniqKeepFirst]
  | cons x xs ih =>
    intro seen
    by_cases hx : x ∈ seen
    · simpa [uniqKeepFirst, hx] using ih seen
    · simp only [uniqKeepFirst, if_neg hx]
      obtain ⟨hnd, hmem⟩ := ih (x :: seen)
      refine ⟨List.nodup_cons.mpr ⟨fun hc => ?_, hnd⟩, ?_⟩
      · exact hmem x hc (List.mem_cons_self x seen)
      · intro y hy
        rcases List.mem_cons.mp hy with hy0 | hy1
        · subst hy0; exact hx
        · intro hys
          exact hmem y hy1 (List.mem_cons_of_mem x hys)

/-- `uniqKeepFirst` deletes occurrences but never reorders: its output is
a sublist of its input. -/
theorem uniqKeepFirst_sublist (xs : List Int) :
    ∀ seen : List Int, (uniqKeepFirst xs seen).Sublist xs := by
  induction xs with
  | nil => intro seen; simp [uniqKeepFirst]
  | cons x xs ih =>
    intro seen
    by_cases hx : x ∈ seen
    · simp only [uniqKeepFirst, if_pos hx]
      exact (ih seen).trans (List.sublist_cons_self x xs)
    · simp only [uniqKeepFirst, if_neg hx]
      exact List.Sublist.cons₂ x (ih (x :: seen))

/-- Membership in `uniqKeepFirst`: exactly the input values not already
seen. -/
theorem uniqKeepFirst_mem (xs : List Int) :
    ∀ (seen : List Int) (x : Int),
      x ∈ uniqKeepFirst xs seen ↔ x ∈ xs ∧ x ∉ seen := by
  induction xs with
  | nil => intro seen x; simp [uniqKeepFirst]
  | cons a as ih =>
    intro seen x
    by_cases ha : a ∈ seen
    · simp only [uniqKeepFirst, if_pos ha]
      rw [ih seen x]
      constructor
      · rintro ⟨h1, h2⟩
        exact ⟨List.mem_cons_of_mem a h1, h2⟩
      · rintro ⟨h1, h2⟩
        rcases List.mem_cons.mp h1 with h | h
        · subst h; exact absurd ha h2
        · exact ⟨h, h2⟩
    · simp only [uniqKeepFirst, if_neg ha]
      constructor
      · intro hmem
        rcases List.mem_cons.mp hmem with h | h
        · subst h; exact ⟨List.mem_cons_self x as, ha⟩
        · rw [ih (a :: seen) x] at h
          exact ⟨List.mem_cons_of_mem a h.1, fun hs => h.2 (List.mem_cons_of_mem a hs)⟩
      · rintro ⟨h1, h2⟩
        rcases List.mem_cons.mp h1 with h | h
        · subst h; exact List.mem_cons_self x _
        · by_cases hxa : x = a
          · subst hxa; exact List.mem_cons_self x _
          · apply List.mem_cons_of_mem
            rw [ih (a :: seen) x]
            exact ⟨h, fun hs => (List.mem_cons.mp hs).elim hxa h2⟩

/-- `uniqKeepFirst` depends on the seen set only through membership. -/
theorem uniqKeepFirst_seen_congr (xs : List Int) :
    ∀ seen seen' : List Int, (∀ a : Int, a ∈ seen ↔ a ∈ seen') →
      uniqKeepFirst xs seen = uniqKeepFirst xs seen' := by
  induction xs with
  | nil => intro seen seen' h; rfl
  | cons x xs ih =>
    intro seen seen' h
    by_cases hx : x ∈ seen
    · simp only [uniqKeepFirst, if_pos hx, if_pos ((h x).mp hx)]
      exact ih seen seen' h
    · have hx' : x ∉ seen' := fun hc => hx ((h x).mpr hc)
      simp only [uniqKeepFirst, if_neg hx, if_neg hx']
      have hcongr := ih (x :: seen) (x :: seen') (fun a => by
        constructor
        · intro hm
          rcases List.mem_cons.mp hm with h0 | h0
          · subst h0; exact List.mem_cons_self a _
          · exact List.mem_cons_of_mem x ((h a).mp h0)
        · intro hm
          rcases List.mem_cons.mp hm with h0 | h0
          · subst h0; exact List.mem_cons_self a _
          · exact List.mem_cons_of_mem x ((h a).mpr h0))
      rw [hcongr]

/-- Seeding the seen set with a value is the same as deleting it from the
input. -/
theorem uniqKeepFirst_filter (xs : List Int) :
    ∀ (seen : List Int) (y : Int),
      uniqKeepFirst xs (y :: seen) =
        uniqKeepFirst (xs.filter (fun a => a != y)) seen := by
  induction xs with
  | nil => intro seen y; rfl
  | cons a as ih =>
    intro seen y
    by_cases hay : a = y
    · subst hay
      have hmem : a ∈ a :: seen := List.mem_cons_self a seen
      simp only [uniqKeepFirst, if_pos hmem, List.filter_cons, bne_self_eq_false]
      simp only [Bool.false_eq_true, if_false]
      exact ih seen a
    · have hba : (a != y) = true := bne_iff_ne.mpr hay
      by_cases ha : a ∈ seen
      · have ha' : a ∈ y :: seen := List.mem_cons_of_mem y ha
        simp only [uniqKeepFirst, if_pos ha', List.filter_cons, hba, if_true,
          if_pos ha]
        exact ih seen y
      · have ha' : a ∉ y :: seen := by
          intro hc
          rcases List.mem_cons.mp hc with h0 | h0
          · exact hay h0
          · exact ha h0
        simp only [uniqKeepFirst, if_neg ha', List.filter_cons, hba, if_true,
          if_neg ha]
        congr 1
        rw [uniqKeepFirst_seen_congr as (a :: y :: seen) (y :: a :: seen) (fun b => by
          constructor
          · intro hm
            rcases List.mem_cons.mp hm with h0 | h0
            · exact List.mem_cons_of_mem y (h0 ▸ List.mem_cons_self b _)
            · rcases List.mem_cons.mp h0 with h1 | h1
              · exact h1 ▸ List.mem_cons_self b _
              · exact List.mem_cons_of_mem y (List.mem_cons_of_mem a h1)
          · intro hm
            rcases List.mem_cons.mp hm with h0 | h0
            · exact List.mem_cons_of_mem a (h0 ▸ List.mem_cons_self b _)
            · rcases List.mem_cons.mp h0 with h1 | h1
              · exact h1 ▸ List.mem_cons_self b _
              · exact List.mem_cons_of_mem a (List.mem_cons_of_mem y h1))]
        exact ih (a :: seen) y

/-- `uniqKeepFirst` from an empty seen set satisfies the first-occurrence
dedup recursion: keep the head, delete its later duplicates, recurse. -/
theorem uniqKeepFirst_eq_nub (x : Int) (xs : List Int) :
    uniqKeepFirst (x :: xs) [] =
      x :: uniqKeepFirst (xs.filter (fun a => a != x)) [] := by
  have hx : x ∉ ([] : List Int) := List.not_mem_nil x
  simp only [uniqKeepFirst, if_neg hx]
  rw [uniqKeepFirst_filter xs [] x]

/-- `sortedSet` output is ascending and duplicate-free. -/
theorem sortedSet_sorted_nodup (l : List Int) :
    List.Sorted (fun a b => a ≤ b) (sortedSet l) ∧ (sortedSet l).Nodup := by
  constructor
  · exact List.sorted_insertionSort (fun a b => a ≤ b) l.dedup
  · exact ((List.perm_insertionSort (fun a b => a ≤ b) l.dedup).symm).nodup
      (List.nodup_dedup l)

/-- C8 amended: the database path returns identifiers deduplicated,
sorted ascending and non-empty, and raises when no candidate query
yields identifiers; the CSV path deduplicates preserving first-occurrence
order without sorting — its result is the duplicate-free sublist of the
parsed number sequence with the same values, obeying the keep-head,
delete-later-duplicates, recurse equation — and an input whose parts
parse to zero identifiers is returned as an empty list, not an error. -/
theorem nm_id_sources_amended :
    (∀ (results : List (Except String (List (Option Int)))) (l : List Int),
      fetch_nm_ids_from_db results = Except.ok l →
      List.Sorted (fun a b => a ≤ b) l ∧ l.Nodup ∧ l ≠ []) ∧
    (∀ results : List (Except String (List (Option Int))),
      (∀ r ∈ results, noCandidateIds r) →
      ∃ e, fetch_nm_ids_from_db results = Except.error e) ∧
    (∀ (s : String) (l : List Int), parse_nm_ids_csv s = Except.ok l →
      ∃ out, parse_nm_parts ((splitOnChar ',' s).map pyTrim) = Except.ok out ∧
        l = uniqKeepFirst out [] ∧ l.Nodup ∧ l.Sublist out ∧
        (∀ x : Int, x ∈ l ↔ x ∈ out)) ∧
    (∀ (x : Int) (xs : List Int),
      uniqKeepFirst (x :: xs) [] =
        x :: uniqKeepFirst (xs.filter (fun a => a != x)) []) ∧
    (∀ s : String, parse_nm_parts ((splitOnChar ',' s).map pyTrim) = Except.ok [] →
      parse_nm_ids_csv s = Except.ok []) := by
  refine ⟨?_, ?_, ?_, uniqKeepFirst_eq_nub, ?_⟩
  · intro results
    induction results with
    | nil => intro l h; simp [fetch_nm_ids_from_db] at h
    | cons r rest ih =>
      intro l h
      cases r with
      | error e => exact ih l h
      | ok col =>
        simp only [fetch_nm_ids_from_db] at h
        by_cases hne : sortedSet (col.filterMap id) ≠ []
        · rw [if_pos hne] at h
          simp at h
          subst h
          exact ⟨(sortedSet_sorted_nodup _).1, (sortedSet_sorted_nodup _).2, hne⟩
        · rw [if_neg hne] at h
          exact ih l h
  · intro results
    induction results with
    | nil => intro _; exact ⟨_, rfl⟩
    | cons r rest ih =>
      intro hall
      have hr := hall r (List.mem_cons_self r rest)
      have hrest := fun x hx => hall x (List.mem_cons_of_mem r hx)
      cases r with
      | error e => simpa [fetch_nm_ids_from_db] using ih hrest
      | ok col =>
        have hempty : sortedSet (col.filterMap id) = [] := hr
        simpa [fetch_nm_ids_from_db, hempty] using ih hrest
  · intro s l h
    simp only [parse_nm_ids_csv] at h
    cases hp : parse_nm_parts ((splitOnChar ',' s).map pyTrim) with
    | error e => rw [hp] at h; simp at h
    | ok out =>
      rw [hp] at h
      simp at h
      subst h
      refine ⟨out, rfl, rfl, (uniqKeepFirst_nodup out []).1,
        uniqKeepFirst_sublist out [], fun x => ?_⟩
      rw [uniqKeepFirst_mem out [] x]
      simp
  · intro s hp
    simp [parse_nm_ids_csv, hp, uniqKeepFirst]

/-- Witness for the amended C8 at one concrete candidate query result and
one concrete CSV input with a duplicate. -/
theorem nm_id_sources_amended_witness :
    fetch_nm_ids_from_db [Except.ok [some 3, none, some 1, some 3]] = Except.ok [1, 3] ∧
    (List.Sorted (fun a b => a ≤ b) ([1, 3] : List Int) ∧ ([1, 3] : List Int).Nodup ∧
      ([1, 3] : List Int) ≠ []) ∧
    parse_nm_ids_csv "3,1,3" = Except.ok [3, 1] ∧
    (∃ out, parse_nm_parts ((splitOnChar ',' "3,1,3").map pyTrim) = Except.ok out ∧
      ([3, 1] : List Int) = uniqKeepFirst out [] ∧ ([3, 1] : List Int).Nodup ∧
      ([3, 1] : List Int).Sublist out ∧ (∀ x : Int, x ∈ ([3, 1] : List Int) ↔ x ∈ out)) :=
  ⟨by decide,
   nm_id_sources_amended.1 [Except.ok [some 3, none, some 1, some 3]] [1, 3] (by decide),
   by decide,
   nm_id_sources_amended.2.2.1 "3,1,3" [3, 1] (by decide)⟩

/-- C8 counterexample: the CSV supply path neither sorts (input "3,1"
comes back as [3, 1], not ascending) nor treats zero identifiers as
fatal (input "," parses to the empty list without error). -/
theorem nm_id_csv_counterexample :
    parse_nm_ids_csv "3,1" = Except.ok [3, 1] ∧
    ¬ List.Sorted (fun a b => a ≤ b) ([3, 1] : List Int) ∧
    parse_nm_ids_csv "," = Except.ok [] := by
  refine ⟨by decide, ?_, by decide⟩
  intro hs
  have := List.rel_of_sorted_cons hs 1 (by simp)
  omega

/-! ## The upsert sink -/

/-- C9: upsert on an empty row list is a no-op returning a written count
of 0: the store is unchanged and no write occurs. -/
theorem upsert_rows_empty_noop (store : Store) : upsert_rows store [] = (store, 0) := rfl
